import Mathlib

/-!
Verification of the transport/demultiplexing engine of the hardwario
lora-modem host library (src/python/lora.py, class TypeABZ and helpers).

Byte strings are modelled as lists of natural numbers (byte values).
The serial port is modelled by the list of bytes it currently has
available: a read of n bytes returns up to n bytes from the front of
that list, exactly like a pyserial port opened with timeout=0
(TypeABZ.open creates the port with timeout=0, so reads never block).
-/

/-- Byte strings (Python bytes objects) as lists of byte values. -/
abbrev Bytes := List Nat

/-- Bytes of an ASCII string literal, for writing the protocol markers. -/
def strBytes (s : String) : Bytes := s.toList.map Char.toNat

/-- Model of Python bytes.startswith. -/
def startsWith (pre data : Bytes) : Bool := data.take pre.length == pre

/-- ASCII decimal digit test. -/
def isDigit (c : Nat) : Bool := 48 ≤ c && c ≤ 57

/-- Value of a run of ASCII digits. -/
def digitsVal (ds : Bytes) : Nat := ds.foldl (fun a d => a * 10 + (d - 48)) 0

/-- Model of the Python int() constructor applied to a byte string, on the
fragment used by the protocol: an optional sign (the byte 45 is a minus,
43 a plus) followed by a nonempty run of ASCII digits. Returns none when
the string does not have this shape (Python raises ValueError). -/
def parseInt : Bytes → Option Int
  | [] => none
  | c :: rest =>
    if c = 45 then
      if rest ≠ [] && rest.all isDigit then some (-(digitsVal rest : Int)) else none
    else if c = 43 then
      if rest ≠ [] && rest.all isDigit then some ((digitsVal rest : Int)) else none
    else
      if (c :: rest).all isDigit then some ((digitsVal (c :: rest) : Int)) else none

/-- Model of tuple(map(int, payload.split(b0x2c))): split the byte string on
the separator byte and convert every piece with int(); the whole conversion
fails (ValueError) if any piece fails. -/
def parseIntList (l : Bytes) (sep : Nat) : Option (List Int) :=
  (l.splitOn sep).mapM parseInt

/-- Argument values passed to EventEmitter callbacks by TypeABZ.emit. -/
inductive Arg where
  | int (i : Int)
  | bool (b : Bool)
  | bytes (bs : Bytes)
deriving DecidableEq, Repr

/-- One publication on the event bus: the event name as built by
TypeABZ.receive (a Python string, possibly formatted from integers) and
the positional arguments. -/
structure Emit where
  name : String
  args : List Arg
deriving DecidableEq, Repr

/-- State TypeABZ.receive acts on: the bytes currently available on the
serial port (read by the extra port.read in the receive branch) and the
contents of the response queue, front of the list first. -/
structure RxState where
  stream : Bytes
  response : List Bytes
deriving DecidableEq, Repr

/-- Failures TypeABZ.receive can raise while acting on one line. -/
inductive RxError where
  | unsupportedEventParams
  | valueError
deriving DecidableEq, Repr

/-- Model of TypeABZ.receive (src/python/lora.py lines 614 to 648).
The line is classified by prefix in source order; event, answer, ack,
noack and receive lines publish on the event bus, any other line is
appended to the response queue. A receive line additionally consumes
declared_size + 2 further bytes from the port; with the port in
non-blocking mode the read returns at most that many bytes, which the
take models. Returns the publications made (in order) and the new
state, or the exception raised. -/
def receive (data : Bytes) (s : RxState) : Except RxError (List Emit × RxState) :=
  if startsWith (strBytes "+EVENT") data then
    let payload := data.drop 7
    if payload.length = 0 then
      .ok ([⟨"event", []⟩], s)
    else
      match parseIntList payload 44 with
      | none => .error .valueError
      | some [a, b] =>
          .ok ([⟨"event", [.int a, .int b]⟩,
                ⟨"event=" ++ toString a, [.int b]⟩,
                ⟨"event=" ++ toString a ++ "," ++ toString b, []⟩], s)
      | some _ => .error .unsupportedEventParams
  else if startsWith (strBytes "+ANS") data then
    match parseIntList (data.drop 5) 44 with
    | none => .error .valueError
    | some params => .ok ([⟨"answer", params.map Arg.int⟩], s)
  else if startsWith (strBytes "+ACK") data then
    .ok ([⟨"ack", [.bool true]⟩], s)
  else if startsWith (strBytes "+NOACK") data then
    .ok ([⟨"ack", [.bool false]⟩], s)
  else if startsWith (strBytes "+RECV") data then
    match parseIntList (data.drop 6) 44 with
    | none => .error .valueError
    | some [p, size] =>
        let n := (size + 2).toNat
        .ok ([⟨"message", [.int p, .bytes ((s.stream.take n).drop 2)]⟩],
             { s with stream := s.stream.drop n })
    | some _ => .error .valueError
  else
    .ok ([], { s with response := s.response ++ [data] })

/-- Result of running the reader loop over a list of framed lines. -/
structure ReaderOut where
  state : RxState
  emits : List Emit
  errors : List RxError
deriving DecidableEq, Repr

/-- Model of the loop body of TypeABZ.reader (lines 576 to 597) applied to
a list of already framed lines: each line is passed to receive; an
exception from receive is logged (collected in errors) and the loop
continues with the next line. -/
def reader : List Bytes → RxState → ReaderOut
  | [], s => ⟨s, [], []⟩
  | l :: ls, s =>
    match receive l s with
    | .ok (es, s1) =>
        let r := reader ls s1
        ⟨r.state, es ++ r.emits, r.errors⟩
    | .error e =>
        let r := reader ls s
        ⟨r.state, r.emits, e :: r.errors⟩

/-- The five notification prefixes tested by TypeABZ.receive. -/
def isNotification (data : Bytes) : Bool :=
  startsWith (strBytes "+EVENT") data || startsWith (strBytes "+ANS") data ||
  startsWith (strBytes "+ACK") data || startsWith (strBytes "+NOACK") data ||
  startsWith (strBytes "+RECV") data

example : receive (strBytes "+EVENT=1,2") ⟨[], []⟩ =
    .ok ([⟨"event", [.int 1, .int 2]⟩, ⟨"event=1", [.int 2]⟩, ⟨"event=1,2", []⟩],
         ⟨[], []⟩) := by rfl

example : receive (strBytes "+RECV=1,6") ⟨[0, 0, 9, 8, 7, 6, 5, 4], []⟩ =
    .ok ([⟨"message", [.int 1, .bytes [9, 8, 7, 6, 5, 4]]⟩], ⟨[], []⟩) := by rfl

example : receive (strBytes "+OK=5") ⟨[], []⟩ =
    .ok ([], ⟨[], [strBytes "+OK=5"]⟩) := by rfl

lemma startsWith_append (pre rest : Bytes) : startsWith pre (pre ++ rest) = true := by
  simp [startsWith]

lemma parseIntList_nil (sep : Nat) : parseIntList [] sep = none := by
  rfl

/-- Event lines with two parameters as produced by receive. -/
lemma receive_event_two_params (payload : Bytes) (a b : Int) (s : RxState)
    (h : parseIntList payload 44 = some [a, b]) :
    receive (strBytes "+EVENT=" ++ payload) s =
      .ok ([⟨"event", [.int a, .int b]⟩,
            ⟨"event=" ++ toString a, [.int b]⟩,
            ⟨"event=" ++ toString a ++ "," ++ toString b, []⟩], s) := by
  have hne : payload ≠ [] := by
    intro he
    rw [he, parseIntList_nil] at h
    exact Option.noConfusion h
  have hpre : startsWith (strBytes "+EVENT") (strBytes "+EVENT=" ++ payload) = true := by
    have : strBytes "+EVENT=" ++ payload = strBytes "+EVENT" ++ ([61] ++ payload) := by rfl
    rw [this]
    exact startsWith_append _ _
  have hdrop : (strBytes "+EVENT=" ++ payload).drop 7 = payload := by
    have h7 : (strBytes "+EVENT=").length = 7 := by rfl
    rw [← h7, List.drop_left]
  unfold receive
  rw [hpre]
  simp only [if_true, hdrop, List.length_eq_zero, hne, if_neg, h]
  simp [hne]

/-- C4: an event line with exactly two integer parameters (a, b) causes
exactly three publications, in order: the wildcard name with arguments
(a, b), the a-scoped name with argument b, and the fully qualified a,b
name with no arguments; an event line with no parameters publishes only
the wildcard name with no arguments. -/
theorem event_demux_three_publications (payload : Bytes) (a b : Int) (s : RxState)
    (h : parseIntList payload 44 = some [a, b]) :
    receive (strBytes "+EVENT=" ++ payload) s =
      .ok ([⟨"event", [.int a, .int b]⟩,
            ⟨"event=" ++ toString a, [.int b]⟩,
            ⟨"event=" ++ toString a ++ "," ++ toString b, []⟩], s) ∧
    receive (strBytes "+EVENT") s = .ok ([⟨"event", []⟩], s) :=
  ⟨receive_event_two_params payload a b s h, rfl⟩

theorem event_demux_three_publications_witness :
    parseIntList (strBytes "1,2") 44 = some [1, 2] ∧
    receive (strBytes "+EVENT=" ++ strBytes "1,2") ⟨[], []⟩ =
      .ok ([⟨"event", [.int 1, .int 2]⟩,
            ⟨"event=" ++ toString (1 : Int), [.int 2]⟩,
            ⟨"event=" ++ toString (1 : Int) ++ "," ++ toString (2 : Int), []⟩],
           ⟨[], []⟩) :=
  ⟨by rfl,
   (event_demux_three_publications (strBytes "1,2") 1 2 ⟨[], []⟩ (by rfl)).1⟩

/-- A line matching none of the five notification prefixes is appended
verbatim to the response queue and nothing else happens. -/
lemma receive_not_notification (l : Bytes) (s : RxState)
    (h : isNotification l = false) :
    receive l s = .ok ([], { s with response := s.response ++ [l] }) := by
  unfold isNotification at h
  simp only [Bool.or_eq_false_iff] at h
  obtain ⟨⟨⟨⟨h1, h2⟩, h3⟩, h4⟩, h5⟩ := h
  unfold receive
  rw [h1, h2, h3, h4, h5]
  rfl

/-- A line matching a notification prefix never touches the response
queue, whatever receive returns. -/
lemma receive_notification_response (l : Bytes) (s : RxState)
    (h : isNotification l = true)
    (es : List Emit) (s1 : RxState) (hr : receive l s = .ok (es, s1)) :
    s1.response = s.response := by
  unfold receive at hr
  unfold isNotification at h
  dsimp only at hr
  split_ifs at hr <;>
    first
      | (split at hr <;> simp_all)
      | simp_all
  obtain ⟨-, rfl⟩ := hr
  rfl

/-- C7: every line matching none of the notification prefixes is enqueued
verbatim onto the response queue, and the queue after processing any list
of lines is exactly the original queue followed by the non-notification
lines in arrival order; no such line is dropped. -/
theorem response_lines_verbatim_in_order (lines : List Bytes) (s : RxState) :
    (reader lines s).state.response =
      s.response ++ lines.filter (fun l => !isNotification l) := by
  induction lines generalizing s with
  | nil => simp [reader]
  | cons l ls ih =>
    by_cases h : isNotification l
    · cases hr : receive l s with
      | ok out =>
        obtain ⟨es, s1⟩ := out
        have hresp := receive_notification_response l s h es s1 hr
        simp [reader, hr, ih s1, hresp, List.filter_cons, h]
      | error e =>
        simp [reader, hr, ih s, List.filter_cons, h]
    · have hb : isNotification l = false := by simpa using h
      rw [show reader (l :: ls) s =
            (match receive l s with
             | .ok (es, s1) =>
                 let r := reader ls s1
                 ⟨r.state, es ++ r.emits, r.errors⟩
             | .error e =>
                 let r := reader ls s
                 ⟨r.state, r.emits, e :: r.errors⟩ : ReaderOut) from rfl,
         receive_not_notification l s hb]
      simp [ih, List.filter_cons, hb]

/-- Event lines whose parameter list parses but does not have exactly two
elements make receive raise the unsupported event parameters failure. -/
lemma receive_event_bad_param_count (payload : Bytes) (params : List Int) (s : RxState)
    (h : parseIntList payload 44 = some params) (hn : params.length ≠ 2) :
    receive (strBytes "+EVENT=" ++ payload) s = .error .unsupportedEventParams := by
  have hne : payload ≠ [] := by
    intro he
    rw [he, parseIntList_nil] at h
    exact Option.noConfusion h
  have hpre : startsWith (strBytes "+EVENT") (strBytes "+EVENT=" ++ payload) = true := by
    have : strBytes "+EVENT=" ++ payload = strBytes "+EVENT" ++ ([61] ++ payload) := by rfl
    rw [this]
    exact startsWith_append _ _
  have hdrop : (strBytes "+EVENT=" ++ payload).drop 7 = payload := by
    have h7 : (strBytes "+EVENT=").length = 7 := by rfl
    rw [← h7, List.drop_left]
  unfold receive
  rw [hpre]
  simp only [if_true, hdrop, List.length_eq_zero, hne, if_neg, h]
  match params, hn with
  | [], _ => simp [hne]
  | [a], _ => simp [hne]
  | a :: b :: c :: rest, _ => simp [hne]
  | [a, b], hn => exact absurd rfl hn

/-- One step of the reader loop on a line that makes receive raise: the
error is recorded and the remaining lines are processed exactly as if the
bad line had not been there. -/
lemma reader_contains_error (bad : Bytes) (rest : List Bytes) (s : RxState)
    (e : RxError) (hr : receive bad s = .error e) :
    reader (bad :: rest) s =
      ⟨(reader rest s).state, (reader rest s).emits, e :: (reader rest s).errors⟩ := by
  simp [reader, hr]

/-- C6: an event line whose parameters parse to a count other than two
(zero parameters meaning an empty payload is a separate, accepted case)
raises the unsupported event parameters failure, and the reader loop
contains that failure: it is recorded and every subsequent line is
processed exactly as it would have been without the malformed line. -/
theorem malformed_event_contained (payload : Bytes) (params : List Int)
    (rest : List Bytes) (s : RxState)
    (h : parseIntList payload 44 = some params) (hn : params.length ≠ 2) :
    receive (strBytes "+EVENT=" ++ payload) s = .error .unsupportedEventParams ∧
    reader ((strBytes "+EVENT=" ++ payload) :: rest) s =
      ⟨(reader rest s).state, (reader rest s).emits,
       .unsupportedEventParams :: (reader rest s).errors⟩ := by
  have he := receive_event_bad_param_count payload params s h hn
  exact ⟨he, reader_contains_error _ rest s _ he⟩

theorem malformed_event_contained_witness :
    parseIntList (strBytes "1,2,3") 44 = some [1, 2, 3] ∧
    receive (strBytes "+EVENT=" ++ strBytes "1,2,3") ⟨[], []⟩ =
      .error .unsupportedEventParams ∧
    reader ((strBytes "+EVENT=" ++ strBytes "1,2,3") :: [strBytes "+OK"]) ⟨[], []⟩ =
      ⟨⟨[], [strBytes "+OK"]⟩, [], [.unsupportedEventParams]⟩ := by
  have h := malformed_event_contained (strBytes "1,2,3") [1, 2, 3]
    [strBytes "+OK"] ⟨[], []⟩ (by rfl) (by decide)
  exact ⟨by rfl, h.1, by rw [h.2]; rfl⟩

/-- Outcome of one call to TypeABZ.read_inline_response: success with no
value, success with a value, a ModemError raised by raise_for_error and
carrying the device errno, the generic protocol violation (the Python
Exception with message Invalid response), a ValueError from int(), or the
TimeoutError raised when no line arrives in time. -/
inductive InlineResult where
  | ok
  | value (v : Bytes)
  | deviceError (errno : Int)
  | invalid
  | valueErr
  | timeout
deriving DecidableEq, Repr

/-- Model of TypeABZ.read_inline_response (lines 650 to 666). The argument
is the one line pulled from the response queue, or none when the queue
produced nothing within the timeout (queue.Empty). -/
def read_inline_response (resp : Option Bytes) : InlineResult :=
  match resp with
  | none => .timeout
  | some r =>
    if startsWith (strBytes "+ERR=") r && decide (r.length > 6) then
      match parseInt (r.drop 5) with
      | some n => .deviceError n
      | none => .valueErr
    else if r == strBytes "+OK" then
      .ok
    else if startsWith (strBytes "+OK=") r && decide (r.length > 4) then
      .value (r.drop 4)
    else
      .invalid

example : read_inline_response (some (strBytes "+OK")) = .ok := by rfl

example : read_inline_response (some (strBytes "+OK=5")) = .value (strBytes "5") := by rfl

example : read_inline_response (some (strBytes "+ERR=-1")) = .deviceError (-1) := by rfl

example : read_inline_response (some (strBytes "+ERR=5")) = .invalid := by rfl

/-- C10: the line consisting of the Ok marker followed by the equals sign
and nothing else is rejected with the generic protocol violation, not
returned as a success carrying an empty value, because the success with
value branch requires the line to be longer than four bytes. -/
theorem ok_equals_empty_value_invalid :
    read_inline_response (some (strBytes "+OK=")) = .invalid ∧
    (strBytes "+OK=").length = 4 :=
  ⟨rfl, rfl⟩

/-- C5 counterexample: the line +ERR=5 carries the integer code 5, yet
read_inline_response rejects it with the generic protocol violation
instead of raising the device error carrying 5, because the device error
branch demands a line longer than six bytes and this line has exactly
six. -/
theorem err_single_digit_code_not_device_error :
    parseInt (strBytes "5") = some 5 ∧
    (strBytes "+ERR=" ++ strBytes "5").length = 6 ∧
    read_inline_response (some (strBytes "+ERR=" ++ strBytes "5")) = .invalid ∧
    ¬ read_inline_response (some (strBytes "+ERR=" ++ strBytes "5")) = .deviceError 5 := by
  refine ⟨rfl, rfl, rfl, ?_⟩
  intro h
  rw [show read_inline_response (some (strBytes "+ERR=" ++ strBytes "5")) =
        .invalid from rfl] at h
  exact InlineResult.noConfusion h

/-- C5 as amended: the inline response read consumes one line from the
response queue and maps it as follows. No line within the timeout is the
timeout failure; a bare Ok line is success with no value; an Ok line with
a nonempty value is success carrying exactly that value; an Error line
whose code text is at least two bytes long (as every device reported code
is, all being negative) is the typed device error carrying that integer
code, while an Error line with a single byte after the equals sign is the
generic protocol violation; and a line matching none of these markers is
the generic protocol violation. The timeout failure is distinct from the
device error failure. -/
theorem read_inline_response_classification :
    read_inline_response none = .timeout ∧
    read_inline_response (some (strBytes "+OK")) = .ok ∧
    (∀ v : Bytes, v ≠ [] →
        read_inline_response (some (strBytes "+OK=" ++ v)) = .value v) ∧
    (∀ (c : Bytes) (n : Int), parseInt c = some n → 2 ≤ c.length →
        read_inline_response (some (strBytes "+ERR=" ++ c)) = .deviceError n) ∧
    (∀ c : Bytes, c.length = 1 →
        read_inline_response (some (strBytes "+ERR=" ++ c)) = .invalid) ∧
    (∀ r : Bytes, startsWith (strBytes "+ERR=") r = false →
        r ≠ strBytes "+OK" → startsWith (strBytes "+OK=") r = false →
        read_inline_response (some r) = .invalid) ∧
    (∀ n : Int, ¬ InlineResult.timeout = InlineResult.deviceError n) := by
  refine ⟨rfl, rfl, ?_, ?_, ?_, ?_, ?_⟩
  · intro v hv
    match v, hv with
    | w :: ws, _ =>
      simp only [read_inline_response]
      rw [show startsWith (strBytes "+ERR=") (strBytes "+OK=" ++ (w :: ws)) = false
            from rfl]
      rw [show ((strBytes "+OK=" ++ (w :: ws)) == strBytes "+OK") = false from rfl]
      rw [show startsWith (strBytes "+OK=") (strBytes "+OK=" ++ (w :: ws)) = true
            from rfl]
      have hlen : (strBytes "+OK=" ++ (w :: ws)).length > 4 := by
        simp [strBytes]
      simp [hlen]
      have hc : 4 < List.length (strBytes "+OK=") + (ws.length + 1) := by
        have h4 : (strBytes "+OK=").length = 4 := rfl
        omega
      rw [if_pos hc]
      rfl
  · intro c n hp hlen
    match c, hlen with
    | c1 :: c2 :: cs, _ =>
      simp only [read_inline_response]
      rw [show startsWith (strBytes "+ERR=") (strBytes "+ERR=" ++ (c1 :: c2 :: cs)) = true
            from rfl]
      have hlen6 : (strBytes "+ERR=" ++ (c1 :: c2 :: cs)).length > 6 := by
        simp [strBytes]
      have hdrop : (strBytes "+ERR=" ++ (c1 :: c2 :: cs)).drop 5 = c1 :: c2 :: cs := rfl
      simp [hlen6, hdrop, hp]
      intro hle
      exfalso
      have h5 : (strBytes "+ERR=").length = 5 := rfl
      omega
  · intro c hc
    match c, hc with
    | [c1], _ => rfl
  · intro r h1 h2 h3
    simp only [read_inline_response]
    rw [h1, h3]
    have h2b : (r == strBytes "+OK") = false := beq_eq_false_iff_ne.mpr h2
    simp [h2b]
  · intro n h
    exact InlineResult.noConfusion h

theorem read_inline_response_classification_witness :
    read_inline_response (some (strBytes "+OK=" ++ strBytes "5")) =
      .value (strBytes "5") ∧
    read_inline_response (some (strBytes "+ERR=" ++ strBytes "-1")) =
      .deviceError (-1) ∧
    read_inline_response (some (strBytes "+ERR=" ++ strBytes "7")) = .invalid ∧
    read_inline_response (some (strBytes "ABC")) = .invalid :=
  ⟨read_inline_response_classification.2.2.1 (strBytes "5") (by decide),
   read_inline_response_classification.2.2.2.1 (strBytes "-1") (-1) (by rfl) (by decide),
   read_inline_response_classification.2.2.2.2.1 (strBytes "7") (by decide),
   read_inline_response_classification.2.2.2.2.2.1 (strBytes "ABC") (by rfl)
     (by decide) (by rfl)⟩

/-- C1 counterexample: a receive line declaring size 6 while only three
bytes are available on the port makes receive succeed, publishing a
message whose payload is the single byte left after discarding the first
two of the three bytes actually read; the short read raises no failure. -/
theorem receive_short_read_truncates_silently :
    receive (strBytes "+RECV=1,6") ⟨[0, 0, 9], []⟩ =
      .ok ([⟨"message", [.int 1, .bytes [9]]⟩], ⟨[], []⟩) ∧
    ([0, 0, 9] : Bytes).length < 6 + 2 :=
  ⟨rfl, by decide⟩

/-- C1 as amended: a receive line with parameters (port, declared_size)
requests declared_size + 2 further raw bytes from the Link. When at least
that many bytes are available the read consumes exactly declared_size + 2
bytes and the message publication carries exactly that byte sequence with
its first two bytes discarded. A read that returns fewer bytes is not
detected: the operation still succeeds and dispatches the short sequence
with its first two bytes discarded (a silently truncated payload), it is
not a fatal transport error. -/
theorem receive_line_reads_declared_plus_two (pl : Bytes) (p size : Int) (s : RxState)
    (h : parseIntList pl 44 = some [p, size])
    (hlen : (size + 2).toNat ≤ s.stream.length) :
    receive (strBytes "+RECV=" ++ pl) s =
      .ok ([⟨"message", [.int p, .bytes ((s.stream.take (size + 2).toNat).drop 2)]⟩],
           ⟨s.stream.drop (size + 2).toNat, s.response⟩) ∧
    (s.stream.take (size + 2).toNat).length = (size + 2).toNat ∧
    (s.stream.drop (size + 2).toNat).length = s.stream.length - (size + 2).toNat := by
  refine ⟨?_, ?_, ?_⟩
  · have hdrop : (strBytes "+RECV=" ++ pl).drop 6 = pl := by
      have h6 : (strBytes "+RECV=").length = 6 := by rfl
      rw [← h6, List.drop_left]
    unfold receive
    rw [show startsWith (strBytes "+EVENT") (strBytes "+RECV=" ++ pl) = false from rfl,
        show startsWith (strBytes "+ANS") (strBytes "+RECV=" ++ pl) = false from rfl,
        show startsWith (strBytes "+ACK") (strBytes "+RECV=" ++ pl) = false from rfl,
        show startsWith (strBytes "+NOACK") (strBytes "+RECV=" ++ pl) = false from rfl,
        show startsWith (strBytes "+RECV") (strBytes "+RECV=" ++ pl) = true from rfl,
        hdrop, h]
    simp
  · rw [List.length_take]
    omega
  · rw [List.length_drop]

theorem receive_line_reads_declared_plus_two_witness :
    parseIntList (strBytes "1,6") 44 = some [1, 6] ∧
    ((6 : Int) + 2).toNat ≤ ([1, 2, 30, 40, 50, 60, 70, 80] : Bytes).length ∧
    receive (strBytes "+RECV=" ++ strBytes "1,6") ⟨[1, 2, 30, 40, 50, 60, 70, 80], []⟩ =
      .ok ([⟨"message", [.int 1, .bytes [30, 40, 50, 60, 70, 80]]⟩], ⟨[], []⟩) := by
  refine ⟨by rfl, by decide, ?_⟩
  have h := (receive_line_reads_declared_plus_two (strBytes "1,6") 1 6
    ⟨[1, 2, 30, 40, 50, 60, 70, 80], []⟩ (by rfl) (by decide)).1
  rw [h]
  rfl

/-- Model of the throttling step at the top of TypeABZ.AT (lines 691 to
695): the number of seconds the invocation sleeps before acquiring the
lock and writing, as a function of the configured guard interval, the
completion time of the previous invocation (none when no invocation has
completed yet) and the current time, all in seconds. -/
def guardSleep (guard : Option ℚ) (prevAt : Option ℚ) (now : ℚ) : ℚ :=
  match guard, prevAt with
  | some g, some p => if now - p < g then g else 0
  | _, _ => 0

/-- Blocking behaviour asserted by the specification: when less than the
guard interval has elapsed, block for the remaining difference. -/
def guardSleepSpec (guard : Option ℚ) (prevAt : Option ℚ) (now : ℚ) : ℚ :=
  match guard, prevAt with
  | some g, some p => if now - p < g then g - (now - p) else 0
  | _, _ => 0

/-- C3 counterexample: with a guard interval of 2 seconds and 1 second
elapsed since the previous reply, the code sleeps the full 2 seconds,
not the remaining 1 second the claim asserts. -/
theorem guard_sleeps_full_interval_counterexample :
    guardSleep (some 2) (some 0) 1 = 2 ∧
    guardSleepSpec (some 2) (some 0) 1 = 1 ∧
    ¬ guardSleep (some 2) (some 0) 1 = guardSleepSpec (some 2) (some 0) 1 := by
  refine ⟨?_, ?_, ?_⟩
  · simp [guardSleep]
  · simp [guardSleepSpec]
    norm_num
  · intro h
    rw [show guardSleep (some 2) (some 0) 1 = 2 from by simp [guardSleep],
        show guardSleepSpec (some 2) (some 0) 1 = 1 from by simp [guardSleepSpec]; norm_num]
      at h
    norm_num at h

/-- C3 as amended: with a configured guard interval g, if the elapsed
time e = now - prev since the previous invocation is strictly less than
g, the invocation blocks for the full guard interval g (not the
remaining difference g - e); if e is at least g, or no previous
invocation exists, or no guard is configured, it does not block at all. -/
theorem guard_blocks_full_interval (g p now : ℚ) :
    (now - p < g → guardSleep (some g) (some p) now = g) ∧
    (¬ now - p < g → guardSleep (some g) (some p) now = 0) ∧
    guardSleep (some g) none now = 0 ∧
    guardSleep none (some p) now = 0 ∧
    guardSleep none none now = 0 := by
  refine ⟨?_, ?_, rfl, rfl, rfl⟩
  · intro h
    simp [guardSleep, h]
  · intro h
    simp [guardSleep, h]

theorem guard_blocks_full_interval_witness :
    ((1 : ℚ) - 0 < 2 ∧ guardSleep (some 2) (some 0) 1 = 2) ∧
    (¬ (5 : ℚ) - 0 < 2 ∧ guardSleep (some 2) (some 0) 5 = 0) :=
  ⟨⟨by norm_num, (guard_blocks_full_interval 2 0 1).1 (by norm_num)⟩,
   ⟨by norm_num, (guard_blocks_full_interval 2 0 5).2.1 (by norm_num)⟩⟩

/-- Model of the probe-and-compare loop inside TypeABZ.detect_baud_rate
(lines 489 to 499): the expected response bytes are compared one by one
against the successive results of single byte reads at the candidate
speed. A list element some d is a byte received in time, none is a read
that returned no data within the timeout. The loop aborts the candidate
on the first missing or incorrect byte and succeeds only when every
expected byte arrives and matches (the for loop completes, hitting the
else clause that returns the speed). -/
def probeMatches : Bytes → List (Option Nat) → Bool
  | [], _ => true
  | _ :: _, [] => false
  | _ :: _, none :: _ => false
  | c :: cs, some d :: ds => if d ≠ c then false else probeMatches cs ds

/-- Model of TypeABZ.detect_baud_rate (lines 470 to 500): try the
candidate speeds in list order, probing each; return the first speed
whose probe matches the full expected response, or none when the list is
exhausted. The function env gives, for every speed, the sequence of
single byte read results the device produces at that speed after the
probe write. -/
def detect_baud_rate : List Nat → (Nat → List (Option Nat)) → Bytes → Option Nat
  | [], _, _ => none
  | sp :: rest, env, resp =>
    if probeMatches resp (env sp) then some sp
    else detect_baud_rate rest env resp

/-- C9: detection returns the first candidate in list order whose probe
elicits the full expected reply: it equals List.find? over the candidate
list; a matching first candidate is returned immediately whatever the
later candidates would answer; exhausting the list with every candidate
failing yields none (an absence value, not an error); and inside one
candidate a missing byte or a wrong byte aborts that candidate at once,
regardless of the bytes that would follow. -/
theorem detect_baud_rate_first_match :
    (∀ (speeds : List Nat) (env : Nat → List (Option Nat)) (resp : Bytes),
        detect_baud_rate speeds env resp =
          speeds.find? (fun x => probeMatches resp (env x))) ∧
    (∀ (sp : Nat) (rest : List Nat) (env : Nat → List (Option Nat)) (resp : Bytes),
        probeMatches resp (env sp) = true →
        detect_baud_rate (sp :: rest) env resp = some sp) ∧
    (∀ (speeds : List Nat) (env : Nat → List (Option Nat)) (resp : Bytes),
        (∀ x ∈ speeds, probeMatches resp (env x) = false) →
        detect_baud_rate speeds env resp = none) ∧
    (∀ (c : Nat) (cs : Bytes) (ds : List (Option Nat)),
        probeMatches (c :: cs) (none :: ds) = false) ∧
    (∀ (c : Nat) (cs : Bytes) (d : Nat) (ds : List (Option Nat)), d ≠ c →
        probeMatches (c :: cs) (some d :: ds) = false) ∧
    (∀ (c : Nat) (cs : Bytes), probeMatches (c :: cs) [] = false) := by
  refine ⟨?_, ?_, ?_, fun c cs ds => rfl, ?_, fun c cs => rfl⟩
  · intro speeds env resp
    induction speeds with
    | nil => rfl
    | cons x xs ih =>
      by_cases hx : probeMatches resp (env x) = true
      · simp [detect_baud_rate, List.find?, hx]
      · have hx2 : probeMatches resp (env x) = false := by
          simpa using hx
        simpa [detect_baud_rate, List.find?, hx2] using ih
  · intro sp rest env resp hsp
    simp [detect_baud_rate, hsp]
  · intro speeds env resp hall
    induction speeds with
    | nil => rfl
    | cons x xs ih =>
      have hx := hall x (List.mem_cons_self x xs)
      simpa [detect_baud_rate, hx] using
        ih (fun y hy => hall y (List.mem_cons_of_mem x hy))
  · intro c cs d ds hd
    simp [probeMatches, hd]

theorem detect_baud_rate_first_match_witness :
    detect_baud_rate [9600, 19200] (fun _ => []) [1] = none ∧
    detect_baud_rate [9600, 19200]
      (fun sp => if sp = 9600 then [some 1] else []) [1] = some 9600 ∧
    probeMatches [1] (some 2 :: [some 1]) = false :=
  ⟨detect_baud_rate_first_match.2.2.1 [9600, 19200] (fun _ => []) [1]
     (fun x _ => rfl),
   detect_baud_rate_first_match.2.1 9600 [19200]
     (fun sp => if sp = 9600 then [some 1] else []) [1] (by rfl),
   detect_baud_rate_first_match.2.2.2.2.1 1 [] 2 [some 1] (by decide)⟩

/-- A listener registered with the third-party pymitter EventEmitter that
EventSubscription inherits from: the event name it listens on, the
identity of its handler function, and whether it was registered as a
one-shot handler with once. -/
structure Listener where
  name : String
  hid : Nat
  isOnce : Bool
deriving DecidableEq, Repr

/-- The emitter registry: listeners in registration order. -/
abbrev Bus := List Listener

/-- EventEmitter.once: appends a one-shot listener for the event name. -/
def busOnce (bus : Bus) (n : String) (i : Nat) : Bus := bus ++ [⟨n, i, true⟩]

/-- EventEmitter.off: removes the registration of the given handler for
the given event name. -/
def busOff (bus : Bus) (n : String) (i : Nat) : Bus :=
  bus.filter (fun l => !(l.name == n && l.hid == i))

/-- EventEmitter.emit on the registry: every listener registered for the
name fires (in registration order) and every one-shot listener for it is
deregistered. Returns the registry afterwards and the handlers fired. -/
def busEmit (bus : Bus) (n : String) : Bus × List Nat :=
  (bus.filter (fun l => !(l.name == n && l.isOnce)),
   (bus.filter (fun l => l.name == n)).map Listener.hid)

/-- Model of EventSubscription.wait_for (src/python/lora.py lines 417 to
428) as a function of whether a matching publication arrives before the
timeout. It registers a fresh one-shot callback (identified by a handler
id not used in the registry) whose only action is to deposit its
arguments in a single slot queue. If a publication of the event arrives
in time (arrival = some args), the emit fires and removes the one-shot
callback and the deposited arguments are returned; otherwise the timeout
path removes the callback with off and returns none (the model of
raising TimeoutError). Returns the registry afterwards and the result. -/
def wait_for (bus : Bus) (n : String) (fresh : Nat) (arrival : Option (List Arg)) :
    Bus × Option (List Arg) :=
  let bus1 := busOnce bus n fresh
  match arrival with
  | some args => ((busEmit bus1 n).1, some args)
  | none => (busOff bus1 n fresh, none)

/-- C8: after wait_for returns, no registration with the temporary
handler remains in the registry, whether a matching publication arrived
(the one-shot fired) or the wait timed out (the handler was removed with
off before raising); on timeout the registry is exactly what it was
before the call, and when a publication arrives in time its argument
list is returned. -/
theorem wait_for_no_residual_listener (bus : Bus) (n : String) (fresh : Nat)
    (arrival : Option (List Arg)) (args : List Arg)
    (hfresh : ∀ l ∈ bus, l.hid ≠ fresh) :
    (∀ l ∈ (wait_for bus n fresh arrival).1, l.hid ≠ fresh) ∧
    (arrival = some args → (wait_for bus n fresh arrival).2 = some args) ∧
    (arrival = none → (wait_for bus n fresh arrival).1 = bus ∧
        (wait_for bus n fresh arrival).2 = none) := by
  refine ⟨?_, ?_, ?_⟩
  · intro l hl
    cases arrival with
    | some a =>
      simp only [wait_for, busEmit, busOnce] at hl
      rw [List.filter_append] at hl
      rcases List.mem_append.mp hl with hmem | hmem
      · exact hfresh l (List.mem_of_mem_filter hmem)
      · have := List.mem_of_mem_filter hmem
        simp at this
        have hprop := List.of_mem_filter hmem
        rw [this] at hprop
        simp at hprop
    | none =>
      simp only [wait_for, busOff, busOnce] at hl
      rw [List.filter_append] at hl
      rcases List.mem_append.mp hl with hmem | hmem
      · exact hfresh l (List.mem_of_mem_filter hmem)
      · have hx := List.mem_of_mem_filter hmem
        simp at hx
        have hprop := List.of_mem_filter hmem
        rw [hx] at hprop
        simp at hprop
  · intro ha
    rw [ha]
    rfl
  · intro ha
    subst ha
    constructor
    · simp only [wait_for, busOff, busOnce]
      rw [List.filter_append]
      have h1 : bus.filter (fun l => !(l.name == n && l.hid == fresh)) = bus := by
        apply List.filter_eq_self.mpr
        intro l hl
        simp [hfresh l hl]
      have h2 : ([⟨n, fresh, true⟩] : Bus).filter
          (fun l => !(l.name == n && l.hid == fresh)) = [] := by
        simp
      rw [h1, h2, List.append_nil]
    · rfl

theorem wait_for_no_residual_listener_witness :
    (∀ l ∈ ([⟨"x", 0, false⟩] : Bus), l.hid ≠ 1) ∧
    (wait_for [⟨"x", 0, false⟩] "x" 1 none).1 = [⟨"x", 0, false⟩] ∧
    (wait_for [⟨"x", 0, false⟩] "x" 1 (some [Arg.int 3])).2 = some [Arg.int 3] := by
  have hfresh : ∀ l ∈ ([⟨"x", 0, false⟩] : Bus), l.hid ≠ 1 := by decide
  refine ⟨hfresh, ?_, ?_⟩
  · exact ((wait_for_no_residual_listener [⟨"x", 0, false⟩] "x" 1 none
      [] hfresh).2.2 rfl).1
  · exact (wait_for_no_residual_listener [⟨"x", 0, false⟩] "x" 1 (some [Arg.int 3])
      [Arg.int 3] hfresh).2.1 rfl

/-- Atomic actions one invocation of TypeABZ.AT performs on the shared
Link (lines 697 to 718): acquire self.lock (entering the with block),
write the command to the Link, read the response from the response queue
(the read either returns the response or raises TimeoutError when the
timeout elapses; both complete the step), and release the lock (leaving
the with block, also on an exception). -/
inductive ATAct where
  | lockAcquire
  | writeCmd
  | readResponse
  | lockRelease
deriving DecidableEq, Repr

/-- The program one AT invocation runs, in order. -/
def ATProgram : List ATAct := [.lockAcquire, .writeCmd, .readResponse, .lockRelease]

/-- The two concurrent invoking threads. -/
inductive TId where
  | tA
  | tB
deriving DecidableEq, Repr

/-- Interleaving state of two concurrent AT invocations: the program
counter of each thread (an index into ATProgram; 4 means finished) and
the current holder of self.lock. -/
structure ATState where
  pcA : Nat
  pcB : Nat
  owner : Option TId
deriving DecidableEq, Repr

def pcOf (s : ATState) : TId → Nat
  | .tA => s.pcA
  | .tB => s.pcB

def setPc (s : ATState) (t : TId) (v : Nat) : ATState :=
  match t with
  | .tA => { s with pcA := v }
  | .tB => { s with pcB := v }

/-- One atomic step of thread t: it performs its next program action.
Acquiring the lock requires the lock to be free (a thread blocked on the
lock takes no step); releasing requires owning it; the write and the
read are unconditional program steps, performed while the with block is
held purely by program structure. Returns none when thread t cannot
step. -/
def stepAT (s : ATState) (t : TId) : Option ATState :=
  match ATProgram.get? (pcOf s t) with
  | none => none
  | some .lockAcquire =>
      if s.owner = none then some { setPc s t (pcOf s t + 1) with owner := some t }
      else none
  | some .lockRelease =>
      if s.owner = some t then some { setPc s t (pcOf s t + 1) with owner := none }
      else none
  | some .writeCmd => some (setPc s t (pcOf s t + 1))
  | some .readResponse => some (setPc s t (pcOf s t + 1))

/-- Both invocations at their first action, lock free. -/
def ATInit : ATState := ⟨0, 0, none⟩

/-- Run a schedule (the sequence of threads picked to step) from a
state; none when some scheduled thread cannot step there. -/
def runFrom (s : ATState) : List TId → Option ATState
  | [] => some s
  | t :: tr =>
    match stepAT s t with
    | none => none
    | some s1 => runFrom s1 tr

/-- Run a schedule from the initial state. -/
def runAT (tr : List TId) : Option ATState := runFrom ATInit tr

/-- Lock discipline invariant: a thread whose program counter is inside
the with block (past the acquire, not yet past the release) owns the
lock, and the counters never pass the end of the program. -/
def lockInv (s : ATState) : Prop :=
  (1 ≤ s.pcA ∧ s.pcA ≤ 3 → s.owner = some .tA) ∧
  (1 ≤ s.pcB ∧ s.pcB ≤ 3 → s.owner = some .tB) ∧
  s.pcA ≤ 4 ∧ s.pcB ≤ 4

lemma stepAT_preserves_lockInv (s s1 : ATState) (t : TId)
    (hstep : stepAT s t = some s1) (hinv : lockInv s) : lockInv s1 := by
  obtain ⟨hA, hB, h4A, h4B⟩ := hinv
  cases t with
  | tA =>
    simp only [stepAT, pcOf] at hstep
    have hcases : s.pcA = 0 ∨ s.pcA = 1 ∨ s.pcA = 2 ∨ s.pcA = 3 ∨ s.pcA = 4 := by omega
    rcases hcases with h | h | h | h | h <;>
      rw [h] at hstep <;> simp only [ATProgram, List.get?] at hstep
    · split_ifs at hstep with ho
      obtain rfl := Option.some.inj hstep
      exact ⟨fun _ => rfl, fun hc => absurd (hB hc) (by simp [ho]), by simp [setPc], h4B⟩
    · obtain rfl := Option.some.inj hstep
      exact ⟨fun _ => hA (by omega), fun hc => hB hc, by simp [setPc], h4B⟩
    · obtain rfl := Option.some.inj hstep
      exact ⟨fun _ => hA (by omega), fun hc => hB hc, by simp [setPc], h4B⟩
    · split_ifs at hstep with ho
      obtain rfl := Option.some.inj hstep
      refine ⟨fun hc => absurd hc (by simp [setPc]), fun hc => ?_, by simp [setPc], h4B⟩
      have hbb := hB hc
      rw [ho] at hbb
      exact absurd hbb (by decide)
    · exact Option.noConfusion hstep
  | tB =>
    simp only [stepAT, pcOf] at hstep
    have hcases : s.pcB = 0 ∨ s.pcB = 1 ∨ s.pcB = 2 ∨ s.pcB = 3 ∨ s.pcB = 4 := by omega
    rcases hcases with h | h | h | h | h <;>
      rw [h] at hstep <;> simp only [ATProgram, List.get?] at hstep
    · split_ifs at hstep with ho
      obtain rfl := Option.some.inj hstep
      exact ⟨fun hc => absurd (hA hc) (by simp [ho]), fun _ => rfl, h4A, by simp [setPc]⟩
    · obtain rfl := Option.some.inj hstep
      exact ⟨fun hc => hA hc, fun _ => hB (by omega), h4A, by simp [setPc]⟩
    · obtain rfl := Option.some.inj hstep
      exact ⟨fun hc => hA hc, fun _ => hB (by omega), h4A, by simp [setPc]⟩
    · split_ifs at hstep with ho
      obtain rfl := Option.some.inj hstep
      refine ⟨fun hc => ?_, fun hc => absurd hc (by simp [setPc]), h4A, by simp [setPc]⟩
      have haa := hA hc
      rw [ho] at haa
      exact absurd haa (by decide)
    · exact Option.noConfusion hstep

lemma runFrom_preserves_lockInv (tr : List TId) (s s1 : ATState)
    (hrun : runFrom s tr = some s1) (hinv : lockInv s) : lockInv s1 := by
  induction tr generalizing s with
  | nil =>
    simp only [runFrom] at hrun
    rwa [← Option.some.inj hrun]
  | cons t tr ih =>
    simp only [runFrom] at hrun
    cases hs : stepAT s t with
    | none => rw [hs] at hrun; exact Option.noConfusion hrun
    | some s2 =>
      rw [hs] at hrun
      exact ih s2 hrun (stepAT_preserves_lockInv s s2 t hs hinv)

lemma lockInv_init : lockInv ATInit :=
  ⟨fun hc => absurd hc (by decide), fun hc => absurd hc (by decide),
   by decide, by decide⟩

/-- C2: in every state reachable by interleaving two concurrent AT
invocations, whenever one invocation is about to perform its write (it
has acquired the lock, program counter 1), the other invocation either
has not yet acquired the lock at all (counter 0, so it has not written)
or has already completed its whole write, response read and release
(counter 4). The exclusion lock therefore spans the full write then read
cycle and the second write can only happen after the first invocation
has obtained its response or timed out; moreover the two invocations are
never simultaneously inside the locked region, so at most one command is
outstanding on the Link at any instant. -/
theorem at_commands_mutually_exclusive (tr : List TId) (s : ATState)
    (hrun : runAT tr = some s) :
    (s.pcB = 1 → s.pcA = 0 ∨ s.pcA = 4) ∧
    (s.pcA = 1 → s.pcB = 0 ∨ s.pcB = 4) ∧
    ¬((1 ≤ s.pcA ∧ s.pcA ≤ 3) ∧ (1 ≤ s.pcB ∧ s.pcB ≤ 3)) := by
  have hinv := runFrom_preserves_lockInv tr ATInit s hrun lockInv_init
  obtain ⟨hA, hB, h4A, h4B⟩ := hinv
  refine ⟨?_, ?_, ?_⟩
  · intro h1
    by_contra hcon
    push_neg at hcon
    have hoa := hA (by omega)
    have hob := hB (by omega)
    rw [hoa] at hob
    exact absurd hob (by decide)
  · intro h1
    by_contra hcon
    push_neg at hcon
    have hoa := hA (by omega)
    have hob := hB (by omega)
    rw [hoa] at hob
    exact absurd hob (by decide)
  · rintro ⟨ha, hb⟩
    have hoa := hA ha
    have hob := hB hb
    rw [hoa] at hob
    exact absurd hob (by decide)

theorem at_commands_mutually_exclusive_witness :
    runAT [TId.tB] = some ⟨0, 1, some TId.tB⟩ ∧
    ((0 : Nat) = 0 ∨ (0 : Nat) = 4) :=
  ⟨rfl,
   (at_commands_mutually_exclusive [TId.tB] ⟨0, 1, some TId.tB⟩ rfl).1 rfl⟩
